import Mathlib

/-!
Verification of the GestureLSM sampling/training core (src/models/LSM.py).

The development shallowly embeds the pure numeric content of the module:

* rank-4 latent tensors `(batch, channel, joint=1, sequence)` are modelled as
  `List (List ℚ)` — a batch of flattened examples; every per-batch broadcast of
  a `(B,1,1,1)` coefficient tensor against a rank-4 latent is exactly a
  per-example scalar operation on this representation;
* the denoiser (the external "velocity oracle") is an explicit function
  argument; calls to it are recorded in a trace together with the gradient
  mode of the surrounding context (`torch.no_grad` blocks are explicit in the
  source), the `cond_time` argument, and the `force_cfg` argument;
* random draws (`torch.randn_like`, `torch.sigmoid(torch.randn(...))`,
  `multinomial`, `np.random.choice`, `torch.rand`) are threaded as explicit
  inputs, since the source reads them from an externally seeded generator;
* values that PyTorch turns into `NaN` (means over empty tensors) are
  modelled as `none : Option ℚ`;
* the real-valued samplers and the Huber loss use `ℝ` with `Real.log`,
  `Real.exp`, `Real.tan`, `Real.sqrt`.
-/

/-- Conditioning-aware velocity oracle: the training-time `self.denoiser(...)`
call of `GestureLSM.train_forward`.  Arguments in order: noised latents `x`,
per-example `timesteps`, per-example `cond_time`, optional `force_cfg` flags,
and an abstract per-example conditioning value standing for the tensors
(`seed`, `at_feat`, `intent_feat`, `instance_ids`, `style_features`) that the
source slices with the same batch ranges as `x`. -/
abbrev Oracle := List (List ℚ) → List ℚ → List ℚ → Option (List Bool) → List ℚ → List (List ℚ)

/-- One recorded oracle invocation of `train_forward`: `grad` is `true` when
the call happens outside a `torch.no_grad()` block. -/
structure OracleCall where
  grad : Bool
  x : List (List ℚ)
  timesteps : List ℚ
  condTime : List ℚ
  forceCfg : Option (List Bool)
  cond : List ℚ

/-- Result of `GestureLSM.train_forward`: the sampled per-example time values
`t`, step sizes `d`, force-unconditional flags, the three loss entries of the
returned dictionary (`none` models a PyTorch `NaN` from an empty mean), and
the trace of oracle calls. -/
structure TrainOut where
  t : List ℚ
  d : List ℚ
  forceCfg : List Bool
  flowLoss : Option ℚ
  consistencyLoss : Option ℚ
  loss : Option ℚ
  calls : List OracleCall

/-- `flow_batch_size = int(batch_size * 3/4)` (LSM.py line 339); Python's
`int` truncation of `B * 3/4` equals natural floor division `3*B/4`. -/
def flowBatchSize (B : ℕ) : ℕ := 3 * B / 4

/-- Size of the consistency subset, `batch_size - flow_batch_size`. -/
def consBatchSize (B : ℕ) : ℕ := B - flowBatchSize B

/-- `deltas = 1 / torch.tensor([2 ** i for i in range(1, 8)])` (line 335):
the value selected by a multinomial index `i ∈ {0,…,6}` is `2^-(i+1)`. -/
def deltaVals (i : Fin 7) : ℚ := 1 / 2 ^ (i.1 + 1)

/-- The seven admissible nonzero step sizes `{2^-1, …, 2^-7}`. -/
def deltaRange : List ℚ := [1/2, 1/4, 1/8, 1/16, 1/32, 1/64, 1/128]

/-- In-place prefix zeroing `d[:n] = 0` (line 346). -/
def zeroFirst : ℕ → List ℚ → List ℚ
  | 0, l => l
  | _ + 1, [] => []
  | n + 1, _ :: xs => 0 :: zeroFirst n xs

/-- Interpolation mixer `x_t = t_coef * latents + (1 - t_coef) * x0_noise`
(line 350): the `(B,1,1,1)` coefficient broadcasts as a per-example scalar. -/
def mix : List ℚ → List (List ℚ) → List (List ℚ) → List (List ℚ)
  | t :: ts, e1 :: x1, e0 :: x0 =>
      (List.zipWith (fun a b => t * a + (1 - t) * b) e1 e0) :: mix ts x1 x0
  | _, _, _ => []

/-- Elementwise difference of two batches, `latents - x0_noise` (line 365). -/
def subRows (a b : List (List ℚ)) : List (List ℚ) :=
  List.zipWith (List.zipWith (fun x y => x - y)) a b

/-- Elementwise average of two batches, `(speed_t + speed_td) / 2` (line 403). -/
def avgRows (a b : List (List ℚ)) : List (List ℚ) :=
  List.zipWith (List.zipWith (fun x y => (x + y) / 2)) a b

/-- Per-example scaled update `x + d_coef * s` (line 388), the `(B,1,1,1)`
step-size coefficient broadcasting as a per-example scalar. -/
def addScaledRows : List ℚ → List (List ℚ) → List (List ℚ) → List (List ℚ)
  | d :: ds, e :: x, se :: s =>
      (List.zipWith (fun a b => a + d * b) e se) :: addScaledRows ds x s
  | _, _, _ => []

/-- All squared elementwise differences of two batches, flattened. -/
def sqDiffs (a b : List (List ℚ)) : List ℚ :=
  (List.zipWith (List.zipWith (fun x y => (x - y) ^ 2)) a b).flatten

/-- Mean of a list of rationals; `none` models the `NaN` that PyTorch's
mean reduction produces on an empty tensor. -/
def mseMeanOpt (l : List ℚ) : Option ℚ :=
  if l.isEmpty then none else some (l.sum / l.length)

/-- Shallow embedding of `GestureLSM.train_forward` (LSM.py lines 293-421),
starting after the modality encoding.  Explicit random inputs: `x0` is the
`torch.randn_like` noise, `t0` the `torch.sigmoid(torch.randn(B))` time draws
(line 344), `dIdx` the multinomial indices into `deltas` (line 345), `fc` the
`np.random.choice([True, False], size=B-fb, p=[0.5,0.5])` flags (line 373).
`cond` abstracts the per-example conditioning tensors. -/
def trainForward (oracle : Oracle) (latents x0 : List (List ℚ)) (t0 : List ℚ)
    (dIdx : List (Fin 7)) (fc : List Bool) (cond : List ℚ) : TrainOut :=
  let B := latents.length
  let fb := flowBatchSize B
  let d := zeroFirst fb (dIdx.map deltaVals)
  let x_t := mix t0 latents x0
  let flowX := x_t.take fb
  let flowT := t0.take fb
  let flowD := d.take fb
  let flowCond := cond.take fb
  let flow_pred := oracle flowX flowT flowD none flowCond
  let flow_target := subRows (latents.take fb) (x0.take fb)
  let flowMse := mseMeanOpt (sqDiffs flow_target flow_pred)
  let flowLoss := flowMse.bind fun m =>
    if t0.isEmpty then none
    else some (((t0.map fun ti => m / ti).sum) / t0.length)
  let consX := x_t.drop fb
  let consT := t0.drop fb
  let consD := d.drop fb
  let consCond := cond.drop fb
  let speed_t := oracle consX consT consD (some fc) consCond
  let x_td := addScaledRows consD consX speed_t
  let tdTimes := List.zipWith (fun a b => a + b) consT consD
  let speed_td := oracle x_td tdTimes consD (some fc) consCond
  let speed_target := avgRows speed_t speed_td
  let consD2 := consD.map fun di => 2 * di
  let speed_pred := oracle consX consT consD2 (some fc) consCond
  let consistencyLoss := mseMeanOpt (sqDiffs speed_pred speed_target)
  let loss := match flowLoss, consistencyLoss with
    | some a, some b => some (a + b)
    | _, _ => none
  { t := t0
    d := d
    forceCfg := fc
    flowLoss := flowLoss
    consistencyLoss := consistencyLoss
    loss := loss
    calls := [⟨true, flowX, flowT, flowD, none, flowCond⟩,
              ⟨false, consX, consT, consD, some fc, consCond⟩,
              ⟨false, x_td, tdTimes, consD, some fc, consCond⟩,
              ⟨true, consX, consT, consD2, some fc, consCond⟩] }

/-- A concrete shape-preserving oracle returning zero velocity everywhere;
used to instantiate theorems at concrete inputs. -/
def zeroOracle : Oracle := fun x _ _ _ _ => x.map (List.map fun _ => 0)

/-- Flow-matching loss exactly as claim C1 words it: the per-example
mean-squared velocity error on the flow subset, divided elementwise by the
flow subset's own time values, then averaged over the flow subset. -/
def claimFlowLoss (flow_target flow_pred : List (List ℚ)) (tFlow : List ℚ) : Option ℚ :=
  let perEx := List.zipWith
    (fun et ep => ((List.zipWith (fun x y => ((x : ℚ) - y) ^ 2) et ep).sum) / (et.length : ℚ))
    flow_target flow_pred
  let weighted := List.zipWith (fun e ti => e / ti) perEx tFlow
  if weighted.isEmpty then none else some (weighted.sum / weighted.length)

/-- Consistency target exactly as claim C3 words it: evaluate the oracle at
`(x_t, t, cond_time = d)` to get `speed_t`, advance `x_td = x_t + d·speed_t`,
evaluate at `(x_td, t + d, cond_time = d)` to get `speed_td` (same
force-unconditional flags), and average the two speeds. -/
def claimConsistencyTarget (oracle : Oracle) (xc : List (List ℚ)) (tc dc : List ℚ)
    (fc : List Bool) (cc : List ℚ) : List (List ℚ) :=
  let speed_t := oracle xc tc dc (some fc) cc
  let x_td := addScaledRows dc xc speed_t
  let speed_td := oracle x_td (List.zipWith (fun a b => a + b) tc dc) dc (some fc) cc
  avgRows speed_t speed_td

/-- Consistency loss as claim C3 words it: mean-squared error between the
trainable prediction at `(x_t, t, cond_time = 2d)` and the midpoint target. -/
def claimConsistencyLoss (oracle : Oracle) (xc : List (List ℚ)) (tc dc : List ℚ)
    (fc : List Bool) (cc : List ℚ) : Option ℚ :=
  mseMeanOpt (sqDiffs (oracle xc tc (dc.map fun di => 2 * di) (some fc) cc)
    (claimConsistencyTarget oracle xc tc dc fc cc))

/-- A tensor for the coefficient broadcaster: a shape and flat row-major
data.  Well-formedness: `data.length = shape.prod`. -/
structure Tensor where
  shape : List ℕ
  data : List ℚ
deriving DecidableEq

/-- Shallow embedding of `reshape_coefs` (LSM.py lines 111-112):
`t.reshape((t.shape[0], 1, 1, 1))`.  `none` models a raised error: an
`IndexError` when `t` is 0-dimensional (`t.shape[0]` does not exist), or a
`RuntimeError` when the element count differs from the target numel
`shape[0]*1*1*1` (PyTorch `reshape` requires equal numel). -/
def reshape_coefs (t : Tensor) : Option Tensor :=
  match t.shape with
  | [] => none
  | b :: _ => if t.data.length = b * 1 * 1 * 1 then some ⟨[b, 1, 1, 1], t.data⟩ else none

/-- The shape of a batch: one length per example row. -/
def shapeOf (x : List (List ℚ)) : List ℕ := x.map List.length

/-- Whole-tensor scaled update `x + c * s` (LSM.py line 211), `c` a scalar. -/
def addScaledAll (c : ℚ) (x s : List (List ℚ)) : List (List ℚ) :=
  List.zipWith (List.zipWith (fun a b => a + c * b)) x s

/-- Inference-time guided oracle `self.denoiser.forward_with_cfg` (lines
199-209): arguments are the latent `x`, the current scalar time, the scalar
`cond_time`, and `guidance_scale`. -/
abbrev CfgOracle := List (List ℚ) → ℚ → ℚ → ℚ → List (List ℚ)

/-- One recorded inference oracle invocation; `grad = false` because every
call in the generation loop sits inside `torch.no_grad()` (line 198). -/
structure InferCall where
  grad : Bool
  x : List (List ℚ)
  t : ℚ
  condTime : ℚ
  guidanceScale : ℚ

/-- `epsilon = 1e-8` (LSM.py line 189). -/
def eps8 : ℚ := 1 / 100000000

/-- `torch.linspace(epsilon, 1 - epsilon, num_inference_steps + 1)` (line
191): point `k` is `eps + k * ((1 - eps - eps) / N)`. -/
def timegrid (N : ℕ) : List ℚ :=
  (List.range (N + 1)).map fun k : ℕ => eps8 + (k : ℚ) * (((1 - eps8) - eps8) / (N : ℚ))

/-- The generation loop of `GestureLSM.forward` (lines 194-211) over the list
of adjacent grid pairs `(t_{k-1}, t_k)`: call the guided oracle at `t_{k-1}`
with constant `cond_time = dt`, update `x ← x + (t_k - t_{k-1})·speed`, and
record the call. -/
def eulerSteps (oracle : CfgOracle) (gs dt : ℚ) :
    List (ℚ × ℚ) → List (List ℚ) → List (List ℚ) × List InferCall
  | [], x => (x, [])
  | p :: rest, x =>
      let speed := oracle x p.1 dt gs
      let next := eulerSteps oracle gs dt rest (addScaledAll (p.2 - p.1) x speed)
      (next.1, ⟨false, x, p.1, dt, gs⟩ :: next.2)

/-- Shallow embedding of the sampling part of `GestureLSM.forward` (lines
178-213): initial latent is the supplied noise, `delta_t = 1/N` (line 190),
and the loop runs over adjacent pairs of the `N+1`-point time grid. -/
def gestureForward (oracle : CfgOracle) (gs : ℚ) (N : ℕ) (noise : List (List ℚ)) :
    List (List ℚ) × List InferCall :=
  let ts := timegrid N
  eulerSteps oracle gs (1 / (N : ℚ)) (ts.zip ts.tail) noise

/-- A concrete shape-preserving guided oracle (identity velocity field). -/
def idCfgOracle : CfgOracle := fun x _ _ _ => x

/-- `t_min = 1e-5` of the time samplers (LSM.py lines 45, 70, 92). -/
noncomputable def tMin : ℝ := 1 / 100000

/-- `t_max = 1 - 1e-5` of the time samplers. -/
noncomputable def tMax : ℝ := 1 - 1 / 100000

/-- Shallow embedding of `sample_t_fast` (LSM.py lines 70-90) with `a = 2`.
Explicit randomness: `u` is the `torch.rand(num_samples * 2)` draw (each entry
in `[0,1)`), and `sel` is the permutation `torch.randperm(4*num_samples)`
applied before the `[:num_samples]` slice.  The map computes
`(1/a)·log(1 + u·(exp a - 1))`, mirrors through `1 - t`, concatenates,
permutes, truncates, and affinely rescales into `[tMin, tMax]`. -/
noncomputable def sample_t_fast (num_samples : ℕ) (u : List ℝ) (sel : List ℕ) : List ℝ :=
  let a : ℝ := 2
  let t := u.map fun ui => 1 / a * Real.log (1 + ui * (Real.exp a - 1))
  let tCat := t ++ t.map fun x => 1 - x
  ((sel.map fun i => tCat.getD i 0).take num_samples).map fun x => x * (tMax - tMin) + tMin

/-- Shallow embedding of `sample_cosmap` (LSM.py lines 92-109).  `u` is the
`torch.rand(num_samples)` draw; the map is `t = 1 - 1/(tan(π/2·u) + 1)`
followed by the affine rescale into `[tMin, tMax]`. -/
noncomputable def sample_cosmap (u : List ℝ) : List ℝ :=
  u.map fun ui => (1 - 1 / (Real.tan (Real.pi / 2 * ui) + 1)) * (tMax - tMin) + tMin

/-- Shallow embedding of `sample_beta_distribution` (LSM.py lines 45-68).
`samples` is the `Beta(alpha, beta).sample((num_samples,))` draw (support
`[0,1]`); the function only applies the affine rescale into `[tMin, tMax]`. -/
noncomputable def sample_beta_distribution (samples : List ℝ) : List ℝ :=
  samples.map fun s => s * (tMax - tMin) + tMin

/-- The two reduction modes of `GestureLSM.huber_loss` exercised by claim C9
(the source compares the `reduction` string against `'mean'` and `'sum'`;
any other string leaves the per-example vector unreduced). -/
inductive Reduction where
  | mean
  | sum

/-- Shallow embedding of `GestureLSM.huber_loss` (LSM.py lines 515-525) for
rank-4 inputs of shape `(B, d1, d2, d3)`: per example, sum the squared
differences over the `d1*d2*d3` data dimensions, take
`sqrt(s + huber_c^2) - huber_c` with `huber_c = 0.00054 * data_dim`, divide
by `data_dim`, then reduce over the batch. -/
noncomputable def huber_loss (d1 d2 d3 : ℕ) (a b : List (List ℝ)) (red : Reduction) : ℝ :=
  let dataDim : ℕ := d1 * d2 * d3
  let huberC : ℝ := 54 / 100000 * (dataDim : ℝ)
  let perEx := List.zipWith
    (fun ea eb =>
      (Real.sqrt ((List.zipWith (fun x y => (x - y) ^ 2) ea eb).sum + huberC ^ 2) - huberC)
        / (dataDim : ℝ))
    a b
  match red with
  | .mean => perEx.sum / (perEx.length : ℝ)
  | .sum => perEx.sum

/-- Shallow embedding of `GestureLSM.train_reflow` (LSM.py lines 424-461) up
to its first denoiser call.  Explicit randomness: `tDraws` is the
`sample_beta_distribution(batch_size, alpha=2, beta=1.2)` draw and `dIdx` the
multinomial step-size indices.  The flow-prediction call at lines 454-461
reads the names `at_feat` and `intent_feat`, which are neither parameters of
`train_reflow` nor bound anywhere in its body or module, so evaluating the
call's arguments raises `NameError` before any loss is computed; the
unreachable remainder of the body is therefore modelled by `none`. -/
def train_reflow (latents audio_features x0_noise seed : List (List ℚ))
    (tDraws : List ℚ) (dIdx : List (Fin 7)) (fc : List Bool) : Option TrainOut :=
  let B := latents.length
  let fb := flowBatchSize B
  let d := zeroFirst fb (dIdx.map deltaVals)
  let x_t := mix tDraws latents x0_noise
  let _unusedBeforeError := (audio_features, seed, fc, d, x_t)
  none

/-! ## Helper lemmas -/

theorem sum_map_div (m : ℚ) (l : List ℚ) :
    (l.map fun ti => m / ti).sum = m * (l.map fun ti => ti⁻¹).sum := by
  induction l with
  | nil => simp
  | cons a l ih =>
    simp only [List.map_cons, List.sum_cons, ih]
    ring

theorem zeroFirst_take (n : ℕ) : ∀ l : List ℚ, n ≤ l.length →
    (zeroFirst n l).take n = List.replicate n 0 := by
  induction n with
  | zero => intro l _; rfl
  | succ n ih =>
    intro l h
    cases l with
    | nil => simp at h
    | cons x xs =>
      simp only [zeroFirst, List.take_succ_cons, List.replicate_succ]
      exact congrArg (0 :: ·) (ih xs (by simpa using h))

theorem zeroFirst_drop (n : ℕ) : ∀ l : List ℚ, (zeroFirst n l).drop n = l.drop n := by
  induction n with
  | zero => intro l; rfl
  | succ n ih =>
    intro l
    cases l with
    | nil => simp [zeroFirst]
    | cons x xs => simpa [zeroFirst] using ih xs

theorem deltaVals_mem_range (i : Fin 7) : deltaVals i ∈ deltaRange := by
  fin_cases i <;> norm_num [deltaVals, deltaRange]

/-! ## Claim C1 -/

/-- C1 (amended): for every input, the flow loss computed by
`GestureLSM.train_forward` equals the single scalar mean-squared error over
all elements of the flow subset (the default mean reduction of `F.mse_loss`),
multiplied by the mean of the reciprocals `1/t_i` taken over the FULL batch —
all `B` sampled time values, not only the flow subset's.  It is not a mean of
per-example errors divided by flow-subset time values. -/
theorem flow_loss_full_batch_reweight (oracle : Oracle) (latents x0 : List (List ℚ))
    (t0 : List ℚ) (dIdx : List (Fin 7)) (fc : List Bool) (cond : List ℚ) :
    (trainForward oracle latents x0 t0 dIdx fc cond).flowLoss =
      (mseMeanOpt (sqDiffs
          (subRows (latents.take (flowBatchSize latents.length))
            (x0.take (flowBatchSize latents.length)))
          (oracle ((mix t0 latents x0).take (flowBatchSize latents.length))
            (t0.take (flowBatchSize latents.length))
            ((zeroFirst (flowBatchSize latents.length)
                (dIdx.map deltaVals)).take (flowBatchSize latents.length))
            none
            (cond.take (flowBatchSize latents.length))))).bind
        fun m => if t0.isEmpty then none
          else some (m * ((t0.map fun ti => ti⁻¹).sum / (t0.length : ℚ))) := by
  have h : ∀ o : Option ℚ,
      (o.bind fun m => if t0.isEmpty then none
        else some (((t0.map fun ti => m / ti).sum) / (t0.length : ℚ)))
      = (o.bind fun m => if t0.isEmpty then none
        else some (m * ((t0.map fun ti => ti⁻¹).sum / (t0.length : ℚ)))) := by
    intro o
    cases o with
    | none => rfl
    | some m =>
      by_cases he : t0.isEmpty <;> simp [he, sum_map_div, mul_div_assoc]
  exact h _

/-- C1 counterexample: a concrete batch of size 4 with time draws
`t = [1/2, 1/2, 1/2, 1/4]`, unit flow targets and a zero-velocity oracle.
The code's flow loss is `5/2` (the scalar MSE `1` times the full-batch mean
of reciprocals `(2+2+2+4)/4`), while the loss the claim describes (mean over
the flow subset of per-example error over that example's `t`) is `2`. -/
theorem flow_loss_claim_counterexample :
    (trainForward zeroOracle [[1],[1],[1],[1]] [[0],[0],[0],[0]]
        [1/2, 1/2, 1/2, 1/4] [0, 0, 0, 0] [false] [0, 0, 0, 0]).flowLoss = some (5/2)
    ∧ claimFlowLoss
        (subRows (([[1],[1],[1],[1]] : List (List ℚ)).take (flowBatchSize 4))
          (([[0],[0],[0],[0]] : List (List ℚ)).take (flowBatchSize 4)))
        (zeroOracle ((mix [1/2, 1/2, 1/2, 1/4] [[1],[1],[1],[1]] [[0],[0],[0],[0]]).take
            (flowBatchSize 4))
          ([1/2, 1/2, 1/2, 1/4].take (flowBatchSize 4))
          ((zeroFirst (flowBatchSize 4) ([0,0,0,0].map deltaVals)).take (flowBatchSize 4))
          none ([0,0,0,0].take (flowBatchSize 4)))
        (([1/2, 1/2, 1/2, 1/4] : List ℚ).take (flowBatchSize 4)) = some 2
    ∧ (5 : ℚ)/2 ≠ 2 := by
  refine ⟨?_, ?_, by norm_num⟩
  · norm_num [trainForward, zeroOracle, mix, subRows, sqDiffs, mseMeanOpt,
      flowBatchSize, zeroFirst, deltaVals]
  · norm_num [claimFlowLoss, zeroOracle, mix, subRows, flowBatchSize, zeroFirst, deltaVals]

/-! ## Claim C2 -/

/-- C2 counterexample: the claim's exemplar is `batch_size < 4` making the
consistency subset empty, but at batch size 2 (indeed at every positive batch
size) the consistency subset is non-empty: its size is `2 - int(2*3/4) = 1`. -/
theorem small_batch_consistency_counterexample :
    (2 : ℕ) < 4 ∧ consBatchSize 2 ≠ 0 ∧ consBatchSize 2 = 1 := by
  decide

/-- C2 (amended): no batch of positive size yields an empty consistency
subset — `batch_size - int(batch_size*3/4) ≥ 1` always — so the degenerate
case the claim describes cannot arise in `train_forward`; moreover the code
contains no zero-guard: the mean over an empty subset would be `NaN`
(modelled `none`), not a zero contribution. -/
theorem consistency_subset_never_empty :
    (∀ B : ℕ, 1 ≤ B → 1 ≤ consBatchSize B) ∧ mseMeanOpt ([] : List ℚ) = none := by
  constructor
  · intro B hB
    have h : flowBatchSize B < B := by
      unfold flowBatchSize
      omega
    unfold consBatchSize
    omega
  · rfl

theorem consistency_subset_never_empty_witness :
    1 ≤ consBatchSize 2 ∧ mseMeanOpt ([] : List ℚ) = none :=
  ⟨consistency_subset_never_empty.1 2 (by decide), consistency_subset_never_empty.2⟩

/-! ## Claim C3 -/

/-- C3: the consistency branch of `train_forward` computes exactly what the
claim describes: the no-gradient target is the average of `speed_t` (oracle
at `(x_t, t, cond_time = d)`) and `speed_td` (oracle at `(x_td, t + d,
cond_time = d)` with `x_td = x_t + d·speed_t`), both with the same
force-unconditional flags; the trainable prediction is a third oracle
evaluation at `(x_t, t, cond_time = 2d)`, and the consistency loss is the
mean-squared error between prediction and target on the consistency subset.
The call trace confirms the gradient modes: flow call and prediction call
track gradients, the two target calls do not, and all three consistency
calls carry the same `force_cfg` flags. -/
theorem consistency_branch_matches_claim (oracle : Oracle) (latents x0 : List (List ℚ))
    (t0 : List ℚ) (dIdx : List (Fin 7)) (fc : List Bool) (cond : List ℚ) :
    (trainForward oracle latents x0 t0 dIdx fc cond).consistencyLoss =
      claimConsistencyLoss oracle
        ((mix t0 latents x0).drop (flowBatchSize latents.length))
        (t0.drop (flowBatchSize latents.length))
        ((zeroFirst (flowBatchSize latents.length)
            (dIdx.map deltaVals)).drop (flowBatchSize latents.length))
        fc (cond.drop (flowBatchSize latents.length))
    ∧ ((trainForward oracle latents x0 t0 dIdx fc cond).calls.map OracleCall.grad)
        = [true, false, false, true]
    ∧ ((trainForward oracle latents x0 t0 dIdx fc cond).calls.map OracleCall.forceCfg)
        = [none, some fc, some fc, some fc] :=
  ⟨rfl, rfl, rfl⟩

/-! ## Claim C4 -/

theorem timegrid_length (N : ℕ) : (timegrid N).length = N + 1 := by
  rw [timegrid, List.length_map, List.length_range]

theorem timegrid_getD (N k : ℕ) (h : k < N + 1) :
    (timegrid N).getD k 0 = eps8 + (k : ℚ) * (((1 - eps8) - eps8) / (N : ℚ)) := by
  have hlen : k < (timegrid N).length := by simpa [timegrid_length] using h
  rw [List.getD_eq_getElem _ _ hlen]
  simp only [timegrid, List.getElem_map, List.getElem_range]

theorem eulerSteps_trace_length (oracle : CfgOracle) (gs dt : ℚ) :
    ∀ (L : List (ℚ × ℚ)) (x : List (List ℚ)),
      (eulerSteps oracle gs dt L x).2.length = L.length := by
  intro L
  induction L with
  | nil => intro x; rfl
  | cons p rest ih => intro x; simp [eulerSteps, ih]

theorem eulerSteps_trace_mem (oracle : CfgOracle) (gs dt : ℚ) :
    ∀ (L : List (ℚ × ℚ)) (x : List (List ℚ)),
      ∀ c ∈ (eulerSteps oracle gs dt L x).2,
        c.condTime = dt ∧ c.grad = false ∧ c.guidanceScale = gs := by
  intro L
  induction L with
  | nil => intro x c hc; simp [eulerSteps] at hc
  | cons p rest ih =>
    intro x c hc
    simp only [eulerSteps, List.mem_cons] at hc
    rcases hc with h | h
    · subst h; exact ⟨rfl, rfl, rfl⟩
    · exact ih _ c h

theorem eulerSteps_final_foldl (oracle : CfgOracle) (gs dt : ℚ) :
    ∀ (L : List (ℚ × ℚ)) (x : List (List ℚ)),
      (eulerSteps oracle gs dt L x).1 =
        L.foldl (fun xa p => addScaledAll (p.2 - p.1) xa (oracle xa p.1 dt gs)) x := by
  intro L
  induction L with
  | nil => intro x; rfl
  | cons p rest ih => intro x; simp [eulerSteps, List.foldl_cons, ih]

theorem shapeOf_addScaledAll (c : ℚ) : ∀ (x s : List (List ℚ)), shapeOf s = shapeOf x →
    shapeOf (addScaledAll c x s) = shapeOf x := by
  intro x
  induction x with
  | nil => intro s _; simp [addScaledAll, shapeOf]
  | cons e x ih =>
    intro s h
    cases s with
    | nil => simp [shapeOf] at h
    | cons se s =>
      simp only [shapeOf, List.map_cons, List.cons.injEq] at h
      simp only [addScaledAll, List.zipWith_cons_cons, shapeOf, List.map_cons, List.cons.injEq]
      refine ⟨?_, ?_⟩
      · simp [List.length_zipWith, h.1]
      · exact ih s h.2

theorem eulerSteps_shape (oracle : CfgOracle) (gs dt : ℚ)
    (hsp : ∀ x t dtv g, shapeOf (oracle x t dtv g) = shapeOf x) :
    ∀ (L : List (ℚ × ℚ)) (x : List (List ℚ)),
      shapeOf (eulerSteps oracle gs dt L x).1 = shapeOf x := by
  intro L
  induction L with
  | nil => intro x; rfl
  | cons p rest ih =>
    intro x
    calc shapeOf (eulerSteps oracle gs dt (p :: rest) x).1
        = shapeOf (addScaledAll (p.2 - p.1) x (oracle x p.1 dt gs)) := ih _
      _ = shapeOf x := shapeOf_addScaledAll _ _ _ (hsp x p.1 dt gs)

/-- C4: for `num_inference_steps = N ≥ 1` and a shape-preserving guided
oracle, `GestureLSM.forward` builds a time grid of exactly `N+1` points that
increase monotonically from `epsilon = 1e-8` to `1 - epsilon`, performs
exactly `N` oracle invocations, all inside `torch.no_grad()` and all with
`cond_time` equal to the constant spacing `1/N` and the configured guidance
scale, applies the update `latent ← latent + (t_k - t_{k-1})·speed` at each
transition, and returns a latent of the same shape as the initial noise. -/
theorem inference_integrator_contract (oracle : CfgOracle) (gs : ℚ) (N : ℕ)
    (noise : List (List ℚ)) (hN : 1 ≤ N)
    (hsp : ∀ x t dtv g, shapeOf (oracle x t dtv g) = shapeOf x) :
    (timegrid N).length = N + 1
    ∧ (timegrid N).getD 0 0 = eps8
    ∧ (timegrid N).getD N 0 = 1 - eps8
    ∧ (∀ k, k + 1 ≤ N → (timegrid N).getD k 0 < (timegrid N).getD (k + 1) 0)
    ∧ (gestureForward oracle gs N noise).2.length = N
    ∧ (∀ c ∈ (gestureForward oracle gs N noise).2,
        c.condTime = 1 / (N : ℚ) ∧ c.grad = false ∧ c.guidanceScale = gs)
    ∧ (gestureForward oracle gs N noise).1 =
        ((timegrid N).zip (timegrid N).tail).foldl
          (fun xa p => addScaledAll (p.2 - p.1) xa (oracle xa p.1 (1 / (N : ℚ)) gs)) noise
    ∧ shapeOf (gestureForward oracle gs N noise).1 = shapeOf noise := by
  have hN0 : (N : ℚ) ≠ 0 := by
    have hp : N ≠ 0 := by omega
    exact_mod_cast hp
  have hstep : (0 : ℚ) < ((1 - eps8) - eps8) / (N : ℚ) := by
    apply div_pos
    · norm_num [eps8]
    · exact_mod_cast hN
  refine ⟨timegrid_length N, ?_, ?_, ?_, ?_, ?_, ?_, ?_⟩
  · rw [timegrid_getD N 0 (by omega)]; simp
  · rw [timegrid_getD N N (by omega)]
    rw [mul_comm, div_mul_cancel₀ _ hN0]
    ring
  · intro k hk
    rw [timegrid_getD N k (by omega), timegrid_getD N (k + 1) (by omega)]
    have hlt : (k : ℚ) < (k : ℚ) + 1 := by linarith
    have := mul_lt_mul_of_pos_right hlt hstep
    push_cast
    linarith
  · show (eulerSteps oracle gs (1 / (N : ℚ)) ((timegrid N).zip (timegrid N).tail) noise).2.length = N
    rw [eulerSteps_trace_length]
    rw [List.length_zip, List.length_tail, timegrid_length]
    omega
  · exact eulerSteps_trace_mem oracle gs (1 / (N : ℚ)) ((timegrid N).zip (timegrid N).tail) noise
  · exact eulerSteps_final_foldl oracle gs (1 / (N : ℚ)) ((timegrid N).zip (timegrid N).tail) noise
  · exact eulerSteps_shape oracle gs (1 / (N : ℚ)) hsp ((timegrid N).zip (timegrid N).tail) noise

theorem inference_integrator_contract_witness :
    (timegrid 2).length = 2 + 1
    ∧ (gestureForward idCfgOracle 0 2 [[1]]).2.length = 2
    ∧ shapeOf (gestureForward idCfgOracle 0 2 [[1]]).1 = shapeOf [[1]] := by
  have h := inference_integrator_contract idCfgOracle 0 2 [[1]] (by omega)
    (fun x t dtv g => rfl)
  exact ⟨h.1, h.2.2.2.2.1, h.2.2.2.2.2.2.2⟩

/-! ## Claim C5 -/

/-- C5: for every batch, the step-size vector `d` built by `train_forward`
has its first `int(B*3/4) = floor(0.75·B)` entries exactly `0`, and every
remaining entry is one of the seven geometric values `{2^-1, …, 2^-7}`. -/
theorem step_size_sampler_contract (oracle : Oracle) (latents x0 : List (List ℚ))
    (t0 : List ℚ) (dIdx : List (Fin 7)) (fc : List Bool) (cond : List ℚ)
    (hlen : dIdx.length = latents.length) :
    ((trainForward oracle latents x0 t0 dIdx fc cond).d).take (flowBatchSize latents.length)
      = List.replicate (flowBatchSize latents.length) 0
    ∧ ∀ v ∈ ((trainForward oracle latents x0 t0 dIdx fc cond).d).drop
        (flowBatchSize latents.length), v ∈ deltaRange := by
  constructor
  · show (zeroFirst (flowBatchSize latents.length) (dIdx.map deltaVals)).take
        (flowBatchSize latents.length) = List.replicate (flowBatchSize latents.length) 0
    apply zeroFirst_take
    rw [List.length_map, hlen]
    unfold flowBatchSize
    omega
  · intro v hv
    have hv' : v ∈ (zeroFirst (flowBatchSize latents.length) (dIdx.map deltaVals)).drop
        (flowBatchSize latents.length) := hv
    rw [zeroFirst_drop] at hv'
    have hm : v ∈ dIdx.map deltaVals := List.mem_of_mem_drop hv'
    obtain ⟨i, _, rfl⟩ := List.mem_map.1 hm
    exact deltaVals_mem_range i

theorem step_size_sampler_contract_witness :
    ((trainForward zeroOracle [[1],[1],[1],[1]] [[0],[0],[0],[0]] [1/2, 1/2, 1/2, 1/4]
        [0, 3, 2, 6] [false] [0, 0, 0, 0]).d).take (flowBatchSize 4)
      = List.replicate (flowBatchSize 4) 0 :=
  (step_size_sampler_contract zeroOracle [[1],[1],[1],[1]] [[0],[0],[0],[0]]
    [1/2, 1/2, 1/2, 1/4] [0, 3, 2, 6] [false] [0, 0, 0, 0] rfl).1

/-! ## Claim C6 -/

theorem affine_rescale_mem {x : ℝ} (h0 : 0 ≤ x) (h1 : x ≤ 1) :
    tMin ≤ x * (tMax - tMin) + tMin ∧ x * (tMax - tMin) + tMin ≤ tMax := by
  have hd : (0 : ℝ) ≤ tMax - tMin := by norm_num [tMin, tMax]
  constructor
  · have := mul_nonneg h0 hd
    linarith
  · have hx : x * (tMax - tMin) ≤ tMax - tMin := mul_le_of_le_one_left hd h1
    linarith

theorem exp_tilt_unit_interval {ui : ℝ} (h0 : 0 ≤ ui) (h1 : ui < 1) :
    0 ≤ 1 / (2 : ℝ) * Real.log (1 + ui * (Real.exp 2 - 1))
    ∧ 1 / (2 : ℝ) * Real.log (1 + ui * (Real.exp 2 - 1)) ≤ 1 := by
  have hE : (1 : ℝ) ≤ Real.exp 2 := Real.one_le_exp (by norm_num)
  have hgen : 0 ≤ ui * (Real.exp 2 - 1) := mul_nonneg h0 (by linarith)
  have harg1 : (1 : ℝ) ≤ 1 + ui * (Real.exp 2 - 1) := by linarith
  constructor
  · exact mul_nonneg (by norm_num) (Real.log_nonneg harg1)
  · have hup : ui * (Real.exp 2 - 1) ≤ Real.exp 2 - 1 :=
      mul_le_of_le_one_left (by linarith) h1.le
    have hlog : Real.log (1 + ui * (Real.exp 2 - 1)) ≤ Real.log (Real.exp 2) :=
      Real.log_le_log (by linarith) (by linarith)
    rw [Real.log_exp] at hlog
    linarith

theorem cosmap_unit_interval {ui : ℝ} (h0 : 0 ≤ ui) (h1 : ui < 1) :
    0 ≤ 1 - 1 / (Real.tan (Real.pi / 2 * ui) + 1)
    ∧ 1 - 1 / (Real.tan (Real.pi / 2 * ui) + 1) ≤ 1 := by
  have hpi : (0 : ℝ) ≤ Real.pi / 2 := by positivity
  have hang0 : 0 ≤ Real.pi / 2 * ui := mul_nonneg hpi h0
  have hang1 : Real.pi / 2 * ui ≤ Real.pi / 2 := mul_le_of_le_one_right hpi h1.le
  have htan : 0 ≤ Real.tan (Real.pi / 2 * ui) :=
    Real.tan_nonneg_of_nonneg_of_le_pi_div_two hang0 hang1
  have hinv0 : 0 ≤ 1 / (Real.tan (Real.pi / 2 * ui) + 1) := by positivity
  have hinv1 : 1 / (Real.tan (Real.pi / 2 * ui) + 1) ≤ 1 := by
    rw [div_le_one (by linarith)]
    linarith
  exact ⟨by linarith, by linarith⟩

/-- C6 (amended): each sampler returns exactly `num_samples` values, and all
returned values lie in the CLOSED interval `[t_min, t_max]` — given that the
underlying uniform draws lie in `[0,1)` (the range of `torch.rand`) and the
raw beta draws in `[0,1]` (the support of the beta distribution).  Strict
interior membership, as the claim states it, fails only at draws that hit an
endpoint: a uniform draw of exactly `0` produces exactly `t_min` (see the
counterexample). -/
theorem samplers_range_contract :
    (∀ (n : ℕ) (u : List ℝ) (sel : List ℕ),
      u.length = 2 * n → sel.length = 4 * n → (∀ i ∈ sel, i < 4 * n) →
      (∀ ui ∈ u, 0 ≤ ui ∧ ui < 1) →
      (sample_t_fast n u sel).length = n
      ∧ ∀ v ∈ sample_t_fast n u sel, tMin ≤ v ∧ v ≤ tMax)
    ∧ (∀ u : List ℝ, (∀ ui ∈ u, 0 ≤ ui ∧ ui < 1) →
      (sample_cosmap u).length = u.length
      ∧ ∀ v ∈ sample_cosmap u, tMin ≤ v ∧ v ≤ tMax)
    ∧ (∀ s : List ℝ, (∀ si ∈ s, 0 ≤ si ∧ si ≤ 1) →
      (sample_beta_distribution s).length = s.length
      ∧ ∀ v ∈ sample_beta_distribution s, tMin ≤ v ∧ v ≤ tMax) := by
  refine ⟨?_, ?_, ?_⟩
  · intro n u sel hu hsel hbound hunit
    constructor
    · simp only [sample_t_fast, List.length_map, List.length_take]
      rw [hsel]
      omega
    · intro v hv
      simp only [sample_t_fast] at hv
      obtain ⟨x, hx, rfl⟩ := List.mem_map.1 hv
      have hx' := List.mem_of_mem_take hx
      obtain ⟨i, hi, rfl⟩ := List.mem_map.1 hx'
      have hcatlen :
          ((u.map fun ui => 1 / (2:ℝ) * Real.log (1 + ui * (Real.exp 2 - 1)))
            ++ (u.map fun ui => 1 / (2:ℝ) * Real.log (1 + ui * (Real.exp 2 - 1))).map
                fun x => 1 - x).length = 4 * n := by
        simp only [List.length_append, List.length_map]
        omega
      have hilen : i < ((u.map fun ui => 1 / (2:ℝ) * Real.log (1 + ui * (Real.exp 2 - 1)))
            ++ (u.map fun ui => 1 / (2:ℝ) * Real.log (1 + ui * (Real.exp 2 - 1))).map
                fun x => 1 - x).length := by
        rw [hcatlen]
        exact hbound i hi
      rw [List.getD_eq_getElem _ _ hilen]
      have hmem := List.getElem_mem hilen
      rw [List.mem_append] at hmem
      have hval : (0 : ℝ) ≤ ((u.map fun ui => 1 / (2:ℝ) * Real.log (1 + ui * (Real.exp 2 - 1)))
            ++ (u.map fun ui => 1 / (2:ℝ) * Real.log (1 + ui * (Real.exp 2 - 1))).map
                fun x => 1 - x)[i]
          ∧ ((u.map fun ui => 1 / (2:ℝ) * Real.log (1 + ui * (Real.exp 2 - 1)))
            ++ (u.map fun ui => 1 / (2:ℝ) * Real.log (1 + ui * (Real.exp 2 - 1))).map
                fun x => 1 - x)[i] ≤ 1 := by
        rcases hmem with hmem | hmem
        · obtain ⟨ui, hui, heq⟩ := List.mem_map.1 hmem
          rw [← heq]
          exact exp_tilt_unit_interval (hunit ui hui).1 (hunit ui hui).2
        · obtain ⟨w, hw, heq⟩ := List.mem_map.1 hmem
          obtain ⟨ui, hui, hweq⟩ := List.mem_map.1 hw
          rw [← heq, ← hweq]
          have h := exp_tilt_unit_interval (hunit ui hui).1 (hunit ui hui).2
          constructor <;> linarith [h.1, h.2]
      exact affine_rescale_mem hval.1 hval.2
  · intro u hunit
    constructor
    · simp only [sample_cosmap, List.length_map]
    · intro v hv
      simp only [sample_cosmap] at hv
      obtain ⟨ui, hui, rfl⟩ := List.mem_map.1 hv
      have h := cosmap_unit_interval (hunit ui hui).1 (hunit ui hui).2
      exact affine_rescale_mem h.1 h.2
  · intro s hunit
    constructor
    · simp only [sample_beta_distribution, List.length_map]
    · intro v hv
      simp only [sample_beta_distribution] at hv
      obtain ⟨si, hsi, rfl⟩ := List.mem_map.1 hv
      exact affine_rescale_mem (hunit si hsi).1 (hunit si hsi).2

/-- C6 counterexample: `torch.rand` can return exactly `0`; with both raw
uniform draws equal to `0` (and the identity permutation), `sample_t_fast`
returns the single value `t_min` itself, which does not lie strictly inside
the open interval `(t_min, t_max)`. -/
theorem samplers_strict_range_counterexample :
    sample_t_fast 1 [0, 0] [0, 1, 2, 3] = [tMin] ∧ ¬ (tMin < tMin ∧ tMin < tMax) := by
  constructor
  · simp [sample_t_fast, Real.log_one]
  · intro h
    exact lt_irrefl _ h.1

theorem samplers_range_contract_witness :
    (sample_t_fast 1 [0, 0] [0, 1, 2, 3]).length = 1
    ∧ (sample_cosmap [0]).length = 1
    ∧ (sample_beta_distribution [0]).length = 1 := by
  refine ⟨(samplers_range_contract.1 1 [0, 0] [0, 1, 2, 3] rfl rfl ?_ ?_).1,
    (samplers_range_contract.2.1 [0] ?_).1,
    (samplers_range_contract.2.2 [0] ?_).1⟩
  · intro i hi
    simp only [List.mem_cons, List.not_mem_nil, or_false] at hi
    rcases hi with h | h | h | h <;> omega
  · intro ui hui
    simp only [List.mem_cons, List.not_mem_nil, or_false] at hui
    rcases hui with h | h <;> norm_num [h]
  · intro ui hui
    simp only [List.mem_cons, List.not_mem_nil, or_false] at hui
    norm_num [hui]
  · intro si hsi
    simp only [List.mem_cons, List.not_mem_nil, or_false] at hsi
    norm_num [hsi]

/-! ## Claim C7 -/

/-- C7 (amended): `reshape_coefs` maps every 1-D input of length `B` to a
tensor of shape `(B, 1, 1, 1)` with the same values in the same order; it
fails exactly for inputs that are 0-dimensional or whose total element count
differs from the size of their first dimension.  It does NOT fail on every
non-1-D input: any tensor with `numel == shape[0]` (for example shape
`(B, 1)`) is reshaped successfully. -/
theorem reshape_coefs_contract (t : Tensor) (hwf : t.data.length = t.shape.prod) :
    (∀ b : ℕ, t.shape = [b] → reshape_coefs t = some ⟨[b, 1, 1, 1], t.data⟩)
    ∧ ((reshape_coefs t).isNone ↔ t.shape = [] ∨ t.data.length ≠ t.shape.headD 0) := by
  constructor
  · intro b hb
    have hlen : t.data.length = b := by
      rw [hwf, hb]
      simp
    simp [reshape_coefs, hb, hlen]
  · cases hshape : t.shape with
    | nil => simp [reshape_coefs, hshape]
    | cons b rest =>
      by_cases hc : t.data.length = b
      · simp [reshape_coefs, hshape, hc]
      · simp [reshape_coefs, hshape, hc]

/-- C7 counterexample: the input of shape `(2, 1)` is not 1-D, yet
`reshape_coefs` does not fail on it — `numel = 2 = shape[0]`, so the reshape
succeeds and returns the `(2, 1, 1, 1)` tensor. -/
theorem reshape_coefs_claim_counterexample :
    (Tensor.mk [2, 1] [3, 4]).shape.length ≠ 1
    ∧ reshape_coefs (Tensor.mk [2, 1] [3, 4]) = some (Tensor.mk [2, 1, 1, 1] [3, 4]) := by
  constructor
  · decide
  · rfl

theorem reshape_coefs_contract_witness :
    reshape_coefs (Tensor.mk [2] [5, 6]) = some (Tensor.mk [2, 1, 1, 1] [5, 6]) :=
  (reshape_coefs_contract (Tensor.mk [2] [5, 6]) (by decide)).1 2 rfl

/-! ## Claim C8 -/

/-- C8: `train_forward` is deterministic as a two-run property: two
invocations with equal inputs and an equal externally-seeded random stream
(the noise, time, step-size-index and force-unconditional draws) produce
identical sampled `t`, identical step sizes `d`, identical
force-unconditional flags, and identical flow, consistency and total losses.
All randomness enters through the explicit draw arguments, so equal
generator state forces equal outputs. -/
theorem train_forward_deterministic (o1 o2 : Oracle) (l1 l2 n1 n2 : List (List ℚ))
    (t1 t2 : List ℚ) (di1 di2 : List (Fin 7)) (f1 f2 : List Bool) (c1 c2 : List ℚ)
    (ho : o1 = o2) (hl : l1 = l2) (hn : n1 = n2) (ht : t1 = t2) (hd : di1 = di2)
    (hf : f1 = f2) (hc : c1 = c2) :
    (trainForward o1 l1 n1 t1 di1 f1 c1).t = (trainForward o2 l2 n2 t2 di2 f2 c2).t
    ∧ (trainForward o1 l1 n1 t1 di1 f1 c1).d = (trainForward o2 l2 n2 t2 di2 f2 c2).d
    ∧ (trainForward o1 l1 n1 t1 di1 f1 c1).forceCfg
        = (trainForward o2 l2 n2 t2 di2 f2 c2).forceCfg
    ∧ (trainForward o1 l1 n1 t1 di1 f1 c1).flowLoss
        = (trainForward o2 l2 n2 t2 di2 f2 c2).flowLoss
    ∧ (trainForward o1 l1 n1 t1 di1 f1 c1).consistencyLoss
        = (trainForward o2 l2 n2 t2 di2 f2 c2).consistencyLoss
    ∧ (trainForward o1 l1 n1 t1 di1 f1 c1).loss
        = (trainForward o2 l2 n2 t2 di2 f2 c2).loss := by
  subst ho hl hn ht hd hf hc
  exact ⟨rfl, rfl, rfl, rfl, rfl, rfl⟩

theorem train_forward_deterministic_witness :
    (trainForward zeroOracle [[1]] [[0]] [1/2] [0] [true] [1]).loss
      = (trainForward zeroOracle [[1]] [[0]] [1/2] [0] [true] [1]).loss :=
  (train_forward_deterministic zeroOracle zeroOracle [[1]] [[1]] [[0]] [[0]]
    [1/2] [1/2] [0] [0] [true] [true] [1] [1]
    rfl rfl rfl rfl rfl rfl rfl).2.2.2.2.2

/-! ## Claim C9 -/

theorem huber_term_nonneg {c den s : ℝ} (hc : 0 ≤ c) (hs : 0 ≤ s) (hden : 0 ≤ den) :
    0 ≤ (Real.sqrt (s + c ^ 2) - c) / den := by
  apply div_nonneg _ hden
  have h1 : Real.sqrt (c ^ 2) ≤ Real.sqrt (s + c ^ 2) := Real.sqrt_le_sqrt (by linarith)
  rw [Real.sqrt_sq hc] at h1
  linarith

theorem sq_zipWith_self_sum_zero (l : List ℝ) :
    (List.zipWith (fun x y => (x - y) ^ 2) l l).sum = 0 := by
  rw [List.zipWith_same]
  apply List.sum_eq_zero
  intro x hx
  obtain ⟨a, _, rfl⟩ := List.mem_map.1 hx
  simp

theorem sq_zipWith_nonneg : ∀ (ea eb : List ℝ) (x : ℝ),
    x ∈ List.zipWith (fun p q => (p - q) ^ 2) ea eb → 0 ≤ x := by
  intro ea
  induction ea with
  | nil => intro eb x hx; simp at hx
  | cons p ea ih =>
    intro eb x hx
    cases eb with
    | nil => simp at hx
    | cons q eb =>
      rw [List.zipWith_cons_cons, List.mem_cons] at hx
      rcases hx with h | h
      · subst h; positivity
      · exact ih eb x h

theorem huber_perEx_nonneg (c : ℝ) (den : ℝ) (hc : 0 ≤ c) (hden : 0 ≤ den) :
    ∀ (a b : List (List ℝ)) (x : ℝ),
      x ∈ List.zipWith
        (fun ea eb =>
          (Real.sqrt ((List.zipWith (fun p q => (p - q) ^ 2) ea eb).sum + c ^ 2) - c) / den)
        a b → 0 ≤ x := by
  intro a
  induction a with
  | nil => intro b x hx; simp at hx
  | cons ea a ih =>
    intro b x hx
    cases b with
    | nil => simp at hx
    | cons eb b =>
      rw [List.zipWith_cons_cons, List.mem_cons] at hx
      rcases hx with h | h
      · subst h
        apply huber_term_nonneg hc _ hden
        apply List.sum_nonneg
        intro q hq
        exact sq_zipWith_nonneg ea eb q hq
      · exact ih b x h

/-- C9: for rank-4 tensors of matching positive shape, `huber_loss` is
non-negative under both `'mean'` and `'sum'` reductions (since
`sqrt(s + huber_c²) ≥ huber_c` for every non-negative `s`), and
`huber_loss(a, a)` is exactly `0` under both reductions. -/
theorem huber_loss_nonneg_and_zero (d1 d2 d3 : ℕ) (a b : List (List ℝ))
    (hdim : 1 ≤ d1 * d2 * d3) (hB : 1 ≤ a.length) (hab : a.length = b.length)
    (ha : ∀ ea ∈ a, ea.length = d1 * d2 * d3) (hb : ∀ eb ∈ b, eb.length = d1 * d2 * d3) :
    0 ≤ huber_loss d1 d2 d3 a b .mean
    ∧ 0 ≤ huber_loss d1 d2 d3 a b .sum
    ∧ huber_loss d1 d2 d3 a a .mean = 0
    ∧ huber_loss d1 d2 d3 a a .sum = 0 := by
  have hc : (0 : ℝ) ≤ 54 / 100000 * ((d1 * d2 * d3 : ℕ) : ℝ) := by positivity
  have hden : (0 : ℝ) ≤ ((d1 * d2 * d3 : ℕ) : ℝ) := Nat.cast_nonneg _
  have hsum : 0 ≤ (List.zipWith
      (fun ea eb =>
        (Real.sqrt ((List.zipWith (fun p q => (p - q) ^ 2) ea eb).sum
            + (54 / 100000 * ((d1 * d2 * d3 : ℕ) : ℝ)) ^ 2)
          - 54 / 100000 * ((d1 * d2 * d3 : ℕ) : ℝ)) / ((d1 * d2 * d3 : ℕ) : ℝ))
      a b).sum :=
    List.sum_nonneg (fun x hx => huber_perEx_nonneg _ _ hc hden a b x hx)
  have hself : ∀ x ∈ List.zipWith
      (fun ea eb =>
        (Real.sqrt ((List.zipWith (fun p q => (p - q) ^ 2) ea eb).sum
            + (54 / 100000 * ((d1 * d2 * d3 : ℕ) : ℝ)) ^ 2)
          - 54 / 100000 * ((d1 * d2 * d3 : ℕ) : ℝ)) / ((d1 * d2 * d3 : ℕ) : ℝ))
      a a, x = 0 := by
    intro x hx
    rw [List.zipWith_same] at hx
    obtain ⟨ea, _, rfl⟩ := List.mem_map.1 hx
    rw [sq_zipWith_self_sum_zero, zero_add, Real.sqrt_sq hc, sub_self, zero_div]
  refine ⟨?_, ?_, ?_, ?_⟩
  · exact div_nonneg hsum (Nat.cast_nonneg _)
  · exact hsum
  · show (List.zipWith _ a a).sum / _ = 0
    rw [List.sum_eq_zero hself, zero_div]
  · show (List.zipWith _ a a).sum = 0
    exact List.sum_eq_zero hself

theorem huber_loss_nonneg_and_zero_witness :
    0 ≤ huber_loss 1 1 1 [[1]] [[0]] .mean ∧ huber_loss 1 1 1 [[1]] [[1]] .mean = 0 := by
  have h := huber_loss_nonneg_and_zero 1 1 1 [[1]] [[0]] (by norm_num) (by norm_num)
    rfl (by simp) (by simp)
  have h2 := huber_loss_nonneg_and_zero 1 1 1 [[1]] [[1]] (by norm_num) (by norm_num)
    rfl (by simp) (by simp)
  exact ⟨h.1, h2.2.2.1⟩

/-! ## Claim C10 -/

/-- C10: every call of `GestureLSM.train_reflow` fails before any loss is
computed: the flow-prediction oracle call reads the unbound names `at_feat`
and `intent_feat` (neither parameters of `train_reflow` nor defined in its
body or module), raising `NameError` while the call's arguments are being
evaluated; consequently `train_reflow` never returns a loss dictionary (the
embedding returns `none` for every input). -/
theorem train_reflow_always_raises (latents audio_features x0_noise seed : List (List ℚ))
    (tDraws : List ℚ) (dIdx : List (Fin 7)) (fc : List Bool) :
    train_reflow latents audio_features x0_noise seed tDraws dIdx fc = none := rfl
